import Mathlib

/-!
Verification development for the sound_cows repository: a terminal audio
player with an oscilloscope visualizer built on the scope-tui signal
pipeline. Samples (Rust f32/f64) are embedded as rationals; byte buffers
as lists of naturals; fallible I/O as `Except`/`Option` values.
-/

set_option linter.unusedVariables false

/-! ### De-interleaving (src/src/audio/player.rs, AudioPlayer::play_file)

The decoded flat sample sequence is distributed round-robin:
`audio_data[i % channels].push(sample)` for each enumerated sample. -/

/-- One iteration of the push loop: append `x` to channel `j` of `acc`. -/
def pushAt (acc : List (List ℚ)) (j : ℕ) (x : ℚ) : List (List ℚ) :=
  acc.set j (acc.getD j [] ++ [x])

/-- The enumerated push loop of `AudioPlayer::play_file`, tracking the
running sample index `i`. -/
def deinterleaveAux (C : ℕ) : ℕ → List ℚ → List (List ℚ) → List (List ℚ)
  | _, [], acc => acc
  | i, x :: rest, acc => deinterleaveAux C (i + 1) rest (pushAt acc (i % C) x)

/-- `vec![Vec::new(); channels]` followed by the enumerated push loop. -/
def deinterleave (C : ℕ) (s : List ℚ) : List (List ℚ) :=
  deinterleaveAux C 0 s (List.replicate C [])

/-- Helper characterizing one output channel of the round-robin loop:
`select C c s` picks the elements of `s` at positions `c, c + C, c + 2*C, …`
(`c` counts down to the next picked element). -/
def select (C : ℕ) : ℕ → List ℚ → List ℚ
  | _, [] => []
  | 0, x :: rest => x :: select C (C - 1) rest
  | c + 1, _ :: rest => select C c rest

/-- Round-robin reconstruction: element `k` is read back from channel
`k % C` at position `k / C`. -/
def interleave (C : ℕ) (m : List (List ℚ)) (L : ℕ) : List ℚ :=
  (List.range L).map (fun k => ((m.getD (k % C) []).getD (k / C) 0))

/-- Countdown from stream position `i` to the next position assigned to
channel `j` (i.e. `(j - i) mod C`). -/
def chanDist (C i j : ℕ) : ℕ :=
  if i % C ≤ j then j - i % C else j + C - i % C

theorem succ_mod_eq (C i : ℕ) (hC : 0 < C) :
    (i + 1) % C = if i % C + 1 = C then 0 else i % C + 1 := by
  have h : (i % C + 1) % C = (i + 1) % C := Nat.mod_add_mod i C 1
  rw [← h]
  by_cases hc : i % C + 1 = C
  · rw [hc, Nat.mod_self]
    simp [hc]
  · have hlt : i % C + 1 < C := by
      have := Nat.mod_lt i hC
      omega
    rw [Nat.mod_eq_of_lt hlt]
    simp [hc]

theorem chanDist_zero_iff (C i j : ℕ) (hj : j < C) :
    chanDist C i j = 0 ↔ i % C = j := by
  have hr : i % C < C := Nat.mod_lt i (by omega)
  unfold chanDist
  by_cases h : i % C ≤ j <;> simp [h] <;> omega

theorem chanDist_succ_self (C i : ℕ) (hC : 0 < C) :
    chanDist C (i + 1) (i % C) = C - 1 := by
  have hr : i % C < C := Nat.mod_lt i hC
  unfold chanDist
  rw [succ_mod_eq C i hC]
  split_ifs <;> omega

theorem chanDist_succ_ne (C i j : ℕ) (hj : j < C) (hne : i % C ≠ j) :
    chanDist C (i + 1) j = chanDist C i j - 1 := by
  have hr : i % C < C := Nat.mod_lt i (by omega)
  unfold chanDist
  rw [succ_mod_eq C i (by omega)]
  split_ifs <;> omega

theorem chanDist_pos (C i j : ℕ) (hj : j < C) (hne : i % C ≠ j) :
    0 < chanDist C i j := by
  rcases Nat.eq_zero_or_pos (chanDist C i j) with h | h
  · exact absurd ((chanDist_zero_iff C i j hj).mp h) hne
  · exact h

theorem length_deinterleaveAux (C : ℕ) (s : List ℚ) :
    ∀ i acc, (deinterleaveAux C i s acc).length = acc.length := by
  induction s with
  | nil => intro i acc; rfl
  | cons x rest ih =>
    intro i acc
    rw [deinterleaveAux, ih]
    simp [pushAt]

theorem getD_deinterleaveAux (C : ℕ) (s : List ℚ) :
    ∀ i acc j, j < C → acc.length = C →
      (deinterleaveAux C i s acc).getD j [] =
        acc.getD j [] ++ select C (chanDist C i j) s := by
  induction s with
  | nil => intro i acc j hj hacc; simp [deinterleaveAux, select]
  | cons x rest ih =>
    intro i acc j hj hacc
    have hC : 0 < C := by omega
    have hiC : i % C < C := Nat.mod_lt i hC
    rw [deinterleaveAux]
    by_cases hji : i % C = j
    · subst hji
      rw [ih (i + 1) _ _ hj (by simp [pushAt, hacc])]
      have hlen : i % C < acc.length := by omega
      have hget : (pushAt acc (i % C) x).getD (i % C) [] =
          acc.getD (i % C) [] ++ [x] := by
        unfold pushAt
        rw [List.getD_eq_getElem?_getD, List.getElem?_set_eq_of_lt _ hlen]
        rfl
      rw [hget, chanDist_succ_self C i hC]
      have hd0 : chanDist C i (i % C) = 0 :=
        (chanDist_zero_iff C i (i % C) hiC).mpr rfl
      rw [hd0]
      simp [select]
    · rw [ih (i + 1) _ _ hj (by simp [pushAt, hacc])]
      have hget : (pushAt acc (i % C) x).getD j [] = acc.getD j [] := by
        unfold pushAt
        rw [List.getD_eq_getElem?_getD, List.getElem?_set_ne (by omega)]
        rw [List.getD_eq_getElem?_getD]
      rw [hget, chanDist_succ_ne C i j hj hji]
      have hpos := chanDist_pos C i j hj hji
      obtain ⟨c, hc⟩ : ∃ c, chanDist C i j = c + 1 :=
        ⟨chanDist C i j - 1, by omega⟩
      rw [hc]
      simp [select]

theorem getD_deinterleave (C : ℕ) (s : List ℚ) (j : ℕ) (hj : j < C) :
    (deinterleave C s).getD j [] = select C j s := by
  unfold deinterleave
  rw [getD_deinterleaveAux C s 0 _ j hj (by simp)]
  have hd : chanDist C 0 j = j := by
    unfold chanDist
    simp
  have hrep : (List.replicate C ([] : List ℚ)).getD j [] = [] := by
    rw [List.getD_eq_getElem?_getD, List.getElem?_replicate]
    split <;> rfl
  rw [hd, hrep]
  rfl

theorem length_deinterleave (C : ℕ) (s : List ℚ) :
    (deinterleave C s).length = C := by
  unfold deinterleave
  rw [length_deinterleaveAux]
  simp

theorem length_select (C : ℕ) (s : List ℚ) :
    ∀ c, c < C → (select C c s).length = (s.length + C - 1 - c) / C := by
  induction s with
  | nil =>
    intro c hc
    rw [select]
    simp only [List.length_nil, Nat.zero_add]
    exact (Nat.div_eq_of_lt (by omega)).symm
  | cons x rest ih =>
    intro c hc
    match c with
    | 0 =>
      rw [select]
      simp only [List.length_cons]
      rw [ih (C - 1) (by omega)]
      have h2 : rest.length + C - 1 - (C - 1) = rest.length := by omega
      have h3 : rest.length + 1 + C - 1 - 0 = rest.length + C := by omega
      rw [h2, h3, Nat.add_div_right _ (by omega)]
    | c + 1 =>
      rw [select]
      rw [ih c (by omega)]
      simp only [List.length_cons]
      congr 1
      omega

theorem getD_select (C : ℕ) (hC : 0 < C) (s : List ℚ) :
    ∀ c n, (select C c s).getD n 0 = s.getD (c + n * C) 0 := by
  induction s with
  | nil => intro c n; rw [select]; rfl
  | cons x rest ih =>
    intro c n
    match c with
    | 0 =>
      rw [select]
      match n with
      | 0 => simp
      | m + 1 =>
        rw [List.getD_cons_succ, ih (C - 1) m]
        have h2 : 0 + (m + 1) * C = (C - 1 + m * C) + 1 := by
          rw [Nat.add_mul]
          omega
        rw [h2, List.getD_cons_succ]
    | c + 1 =>
      rw [select, ih c n]
      have h2 : c + 1 + n * C = (c + n * C) + 1 := by omega
      rw [h2, List.getD_cons_succ]

theorem interleave_deinterleave (C : ℕ) (hC : 0 < C) (s : List ℚ) :
    interleave C (deinterleave C s) s.length = s := by
  apply List.ext_getElem
  · simp [interleave]
  · intro k h1 h2
    simp only [interleave, List.getElem_map, List.getElem_range]
    rw [getD_deinterleave C s (k % C) (Nat.mod_lt k hC),
      getD_select C hC s (k % C) (k / C), Nat.mod_add_div']
    exact List.getD_eq_getElem s 0 h2

/-! ### Small `getD` helpers shared by the window/matrix theorems -/

theorem getD_replicate_zero (n i : ℕ) :
    (List.replicate n (0 : ℚ)).getD i 0 = 0 := by
  rw [List.getD_eq_getElem?_getD, List.getElem?_replicate]
  split <;> rfl

theorem getD_append_replicate_zero (l : List ℚ) (n i : ℕ) (h : l.length ≤ i) :
    (l ++ List.replicate n (0 : ℚ)).getD i 0 = 0 := by
  rw [List.getD_eq_getElem?_getD, List.getElem?_append_right h,
    List.getElem?_replicate]
  split <;> rfl

theorem getD_map_range (f : ℕ → List ℚ) (n j : ℕ) (hj : j < n) :
    ((List.range n).map f).getD j [] = f j := by
  rw [List.getD_eq_getElem?_getD, List.getElem?_map, List.getElem?_range hj]
  rfl

theorem getD_replicate_nil (n j : ℕ) :
    (List.replicate n ([] : List ℚ)).getD j [] = [] := by
  rw [List.getD_eq_getElem?_getD, List.getElem?_replicate]
  split <;> rfl

/-! ### AudioPlayer window extraction (src/src/audio/player.rs)

`get_current_time` reads a wall-clock `Instant`; its derived quantity
`start_sample = (elapsed_seconds * sample_rate) as usize` is passed here as
an explicit argument since real time is outside the embedding. -/

structure AudioPlayer where
  audio_data : List (List ℚ)
  sample_rate : ℕ
  channels : ℕ
  is_streaming_mode : Bool
  is_paused : Bool
  volume : ℚ

/-- `AudioPlayer::get_window` from src/src/audio/player.rs. -/
def AudioPlayer.get_window (p : AudioPlayer) (start_sample window_size : ℕ) :
    List (List ℚ) :=
  if p.is_paused || p.is_streaming_mode then
    List.replicate p.channels (List.replicate window_size 0)
  else if p.audio_data.isEmpty || (p.audio_data.getD 0 []).isEmpty then
    List.replicate p.channels (List.replicate window_size 0)
  else
    (List.range p.channels).map (fun ch =>
      let data := p.audio_data.getD ch []
      if start_sample < data.length then
        let sl := (data.drop start_sample).take window_size
        if sl.length < window_size then
          sl ++ List.replicate (window_size - sl.length) 0
        else sl
      else
        List.replicate window_size 0)

/-- The de-interleaving loop of `AudioPlayer::play_file` (full-load mode):
`audio_data[i % channels].push(sample)` over the enumerated decoded
samples. -/
def AudioPlayer.play_file_distribute (C : ℕ) (samples : List ℚ) :
    List (List ℚ) :=
  deinterleave C samples

theorem getD_replicate_replicate (n ws j : ℕ) (hj : j < n) :
    (List.replicate n (List.replicate ws (0 : ℚ))).getD j [] =
      List.replicate ws 0 := by
  rw [List.getD_eq_getElem?_getD, List.getElem?_replicate]
  simp [hj]

/-! ### File source (src/scope-tui/src/input/file.rs)

A file handle is embedded as the script of results its successive `read`
calls return: each element is either an I/O error or the list of bytes the
call yields (an empty list models end-of-file, i.e. `read` returning 0).
Once the script is exhausted every further read is end-of-file. -/

/-- `read_with_padding`: fill `acc` up to `bufLen` bytes from the scripted
reads; on a read of 0 bytes (EOF) pad the rest with zeros; propagate a read
error. Mirrors the `while read_so_far < buffer.len()` loop. -/
def read_with_padding (bufLen : ℕ) :
    List (Except Unit (List ℕ)) → List ℕ → Except Unit (List ℕ)
  | [], acc =>
    if bufLen ≤ acc.length then Except.ok acc
    else Except.ok (acc ++ List.replicate (bufLen - acc.length) 0)
  | Except.error e :: _, acc =>
    if bufLen ≤ acc.length then Except.ok acc else Except.error e
  | Except.ok bytes :: rest, acc =>
    if bufLen ≤ acc.length then Except.ok acc
    else if (bytes.take (bufLen - acc.length)).length = 0 then
      Except.ok (acc ++ List.replicate (bufLen - acc.length) 0)
    else
      read_with_padding bufLen rest (acc ++ bytes.take (bufLen - acc.length))

/-- `buffer.chunks(2)`: split a byte list into chunks of two (a trailing
odd byte forms a singleton chunk). -/
def chunks2 : List ℕ → List (List ℕ)
  | [] => []
  | [x] => [[x]]
  | x :: y :: rest => [x, y] :: chunks2 rest

/-- Modelled from the spec: the 16-bit signed little-endian sample parser
(`Signed16PCM::parse`, scope-tui `input::format`, not present under src/).
Spec 4.1: decode the fixed-width binary encoding into the raw integer
value; two bytes `[lo, hi]` little-endian, two's complement. The decoded
integer is returned unnormalized; the caller passes the 32768.0 divisor to
`stream_to_matrix`. -/
def Signed16PCM.parse (chunk : List ℕ) : ℚ :=
  match chunk with
  | [lo, hi] =>
    let v : ℤ := lo + 256 * hi
    if v < 32768 then v else v - 65536
  | _ => 0

/-- Modelled from the spec: `stream_to_matrix` (scope-tui `input`, not
present under src/). Spec 4.2: divide each decoded value by the
normalization divisor and round-robin the values across `channel_count`
buffers (sample `i` to channel `i mod channel_count`). The round-robin
distribution reuses the embedding of the identical push loop in
`AudioPlayer::play_file`. -/
def stream_to_matrix (samples : List ℚ) (channel_count : ℕ)
    (divisor : ℚ) : List (List ℚ) :=
  deinterleave channel_count (samples.map (fun s => s / divisor))

/-- `SourceOptions` (src/scope-tui/src/cfg.rs). -/
structure SourceOptions where
  channels : ℕ
  buffer : ℕ
  sample_rate : ℕ
  tune : Option String
deriving DecidableEq

/-- `FileSource::recv`: read `buffer * channels` bytes (zero-padded), parse
as 16-bit signed PCM, normalize by 32768 and de-interleave; `None` on a
read error. -/
def FileSource.recv (o : SourceOptions)
    (reads : List (Except Unit (List ℕ))) : Option (List (List ℚ)) :=
  match read_with_padding (o.buffer * o.channels) reads [] with
  | Except.error _ => none
  | Except.ok bytes =>
    some (stream_to_matrix ((chunks2 bytes).map Signed16PCM.parse)
      o.channels 32768)

theorem length_chunks2 (l : List ℕ) :
    (chunks2 l).length = (l.length + 1) / 2 := by
  induction l using chunks2.induct with
  | case1 => decide
  | case2 x =>
    rw [chunks2]
    simp only [List.length_singleton]
  | case3 x y rest ih =>
    rw [chunks2]
    simp only [List.length_cons, ih]
    omega

theorem read_with_padding_ok (bufLen : ℕ)
    (reads : List (Except Unit (List ℕ))) :
    ∀ acc, (∀ r ∈ reads, r ≠ Except.error ()) → acc.length ≤ bufLen →
      ∃ l, read_with_padding bufLen reads acc = Except.ok l ∧
        l.length = bufLen := by
  induction reads with
  | nil =>
    intro acc hne hacc
    rw [read_with_padding]
    split_ifs with h
    · exact ⟨acc, rfl, by omega⟩
    · exact ⟨_, rfl, by simp; omega⟩
  | cons r rest ih =>
    intro acc hne hacc
    match r with
    | Except.error e =>
      exact absurd rfl (hne _ (List.mem_cons_self _ _))
    | Except.ok bytes =>
      rw [read_with_padding]
      split_ifs with h h2
      · exact ⟨acc, rfl, by omega⟩
      · exact ⟨_, rfl, by simp; omega⟩
      · apply ih _ (fun x hx => hne x (List.mem_cons_of_mem _ hx))
        simp only [List.length_append, List.length_take]
        omega

theorem read_with_padding_error (bufLen : ℕ)
    (reads : List (Except Unit (List ℕ))) :
    ∀ acc l, read_with_padding bufLen reads acc = Except.error l →
      Except.error l ∈ reads := by
  induction reads with
  | nil =>
    intro acc l h
    rw [read_with_padding] at h
    split_ifs at h
  | cons r rest ih =>
    intro acc l h
    match r with
    | Except.error e =>
      rw [read_with_padding] at h
      split_ifs at h
      cases h
      exact List.mem_cons_self _ _
    | Except.ok bytes =>
      rw [read_with_padding] at h
      split_ifs at h
      exact List.mem_cons_of_mem _ (ih _ _ h)

theorem read_with_padding_eof (bufLen : ℕ) (d : List ℕ) (hd : d ≠ [])
    (hlen : d.length ≤ bufLen) :
    read_with_padding bufLen [Except.ok d] [] =
      Except.ok (d ++ List.replicate (bufLen - d.length) 0) := by
  rw [read_with_padding]
  have hdl : 0 < d.length := List.length_pos.mpr hd
  rcases Nat.eq_zero_or_pos bufLen with h0 | hpos
  · subst h0
    omega
  · rw [if_neg (by simp; omega)]
    have htake : d.take (bufLen - List.length ([] : List ℕ)) = d := by
      simp only [List.length_nil, Nat.sub_zero]
      exact List.take_of_length_le hlen
    rw [htake, if_neg (by omega)]
    rw [read_with_padding]
    simp only [List.nil_append]
    split_ifs with h
    · have heq : d.length = bufLen := by omega
      rw [heq]
      simp
    · rfl

/-! ### Note-synchronized buffer sizing (src/scope-tui/src/cfg.rs)

`SourceOptions::tune` (present under src/) parses the configured note name,
asks the note for a tuned buffer size and then increments the buffer while
it is an exact multiple of `channels * 2`.  The `Note` type itself
(scope-tui `music` module) is not present under src/ and is modelled from
the spec below. -/

/-- Modelled from the spec: a parsed pitch — letter, accidental, octave
(spec 3, "Note").  `pitchClass` is the semitone offset of the (possibly
accidental-shifted) letter within its octave, `octave` the parsed octave
number. -/
structure Note where
  pitchClass : ℤ
  octave : ℕ
deriving DecidableEq

/-- Semitone position of a natural note letter within the octave
(C = 0, D = 2, E = 4, F = 5, G = 7, A = 9, B = 11); accepts both cases. -/
def letterSemitone (c : Char) : Option ℤ :=
  if c = 'C' ∨ c = 'c' then some 0
  else if c = 'D' ∨ c = 'd' then some 2
  else if c = 'E' ∨ c = 'e' then some 4
  else if c = 'F' ∨ c = 'f' then some 5
  else if c = 'G' ∨ c = 'g' then some 7
  else if c = 'A' ∨ c = 'a' then some 9
  else if c = 'B' ∨ c = 'b' then some 11
  else none

/-- Decimal digits to a natural number. -/
def digitsToNat (cs : List Char) : ℕ :=
  cs.foldl (fun n c => 10 * n + (c.toNat - 48)) 0

/-- Modelled from the spec: parsing a note name (`txt.parse::<Note>()`,
scope-tui `music` module, not present under src/).  Spec 3: "a parsed pitch
(letter, accidental, octave)" — a letter `A`–`G`, an optional `#`/`b`
accidental, then the octave digits; anything else fails to parse. -/
def parseNote (s : String) : Option Note :=
  match s.toList with
  | [] => none
  | c :: rest =>
    match letterSemitone c with
    | none => none
    | some l =>
      let stripped : ℤ × List Char :=
        match rest with
        | '#' :: r => (l + 1, r)
        | 'b' :: r => (l - 1, r)
        | _ => (l, rest)
      if stripped.2 ≠ [] ∧ stripped.2.all Char.isDigit then
        some { pitchClass := stripped.1, octave := digitsToNat stripped.2 }
      else none

/-- Semitone distance from A4 (A4 itself is octave 4, pitch class 9, i.e.
position 57). -/
def Note.semitonesFromA4 (n : Note) : ℤ :=
  (n.octave : ℤ) * 12 + n.pitchClass - 57

/-- Decides `rate * 2^(-m/12) / 440 < k + 1/2` by raising both (positive)
sides to the 12th power, which clears the irrational semitone ratio
`2^(1/12)` into exact integer arithmetic. -/
def halfLt (rate : ℕ) (m : ℤ) (k : ℕ) : Bool :=
  (2 * rate) ^ 12 * 2 ^ (-m).toNat < 440 ^ 12 * (2 * k + 1) ^ 12 * 2 ^ m.toNat

/-- Linear upward search for the least index at or above `start` (within
`fuel` steps) satisfying `P`. -/
def searchFrom (P : ℕ → Bool) : ℕ → ℕ → ℕ
  | start, 0 => start
  | start, fuel + 1 => if P start then start else searchFrom P (start + 1) fuel

/-- Modelled from the spec: the note period `rate / frequency` in samples,
rounded half away from zero, where `frequency = 440 * 2^(m/12)` by the
equal-tempered formula (spec 3 and 4.3); computed exactly via `halfLt`. -/
def roundedPeriod (rate : ℕ) (m : ℤ) : ℕ :=
  searchFrom (halfLt rate m) 0 (rate * 2 ^ (-m).toNat + 2)

/-- Modelled from the spec: `Note::tune_buffer_size` (scope-tui `music`
module, not present under src/).  Spec 4.3 and the spec 8 example: the
note-derived size is the smallest integer multiple of the rounded period
`round(sample_rate / frequency)`; the alignment guard itself is applied by
the caller `SourceOptions::tune` (src/scope-tui/src/cfg.rs). -/
def Note.tune_buffer_size (n : Note) (sample_rate : ℕ) : ℕ :=
  roundedPeriod sample_rate n.semitonesFromA4

/-- The `while self.buffer.is_multiple_of(self.channels as u32 * 2)`
increment loop of `SourceOptions::tune`, with explicit fuel (for the even
moduli that occur, at most one increment ever happens). -/
def alignStep : ℕ → ℕ → ℕ → ℕ
  | 0, _, b => b
  | fuel + 1, m, b => if m ∣ b then alignStep fuel m (b + 1) else b

/-- `SourceOptions::tune` (src/scope-tui/src/cfg.rs).  Returns the updated
options and whether the unrecognized-note warning was printed. -/
def SourceOptions.tuneApply (o : SourceOptions) : SourceOptions × Bool :=
  match o.tune with
  | none => (o, false)
  | some txt =>
    match parseNote txt with
    | some note =>
      ({ o with
          buffer :=
            alignStep (o.channels * 2 + 2) (o.channels * 2)
              (note.tune_buffer_size o.sample_rate) }, false)
    | none => (o, true)

theorem alignStep_not_dvd (m b : ℕ) (hm : 2 ∣ m) :
    ¬ m ∣ alignStep (m + 2) m b := by
  rw [alignStep]
  split_ifs with h1
  · rw [alignStep]
    split_ifs with h2
    · exfalso
      rcases Nat.eq_zero_or_pos m with h0 | hpos
      · subst h0
        simp only [Nat.zero_dvd] at h1 h2
        omega
      · have hm1 : m = 1 := Nat.dvd_one.mp (by simpa using Nat.dvd_sub' h2 h1)
        obtain ⟨k, hk⟩ := hm
        omega
    · exact h2
  · exact h1

/-! ### Render engine (scope display module, not present under src/)

The app consumes `crate::scope::display::{oscilloscope::Oscilloscope,
GraphConfig}` (src/src/app/state.rs, src/src/ui/layout.rs); the display
module itself is not under src/, so the engine is modelled from spec 3,
4.4 and 9: an enum-free pause/freeze state holding the last computed
dataset list, and per-frame dataset geometry. -/

/-- Display mode of the render engine (spec 4.4 steps 2 and 3). -/
inductive DisplayMode
  | timeDomain
  | vectorscope
deriving DecidableEq

/-- Modelled from the spec: a render dataset — the color index assigned to
the channel (or pair) and the ordered (x, y) points (spec 3, "Dataset"). -/
structure Dataset where
  color : ℕ
  points : List (ℚ × ℚ)
deriving DecidableEq

/-- Modelled from the spec: the per-frame configuration (spec 3,
"Configuration"); colors are palette indices. -/
structure GraphConfig where
  samples : ℕ
  sampling_rate : ℕ
  scale : ℚ
  width : ℕ
  scatter : Bool
  pause : Bool
  no_reference : Bool
  palette : List ℕ

/-- Trailing window: the most recent `n` samples of a channel
(spec 4.4 step 1). -/
def trailingWindow (n : ℕ) (ch : List ℚ) : List ℚ :=
  ch.drop (ch.length - n)

/-- Modelled from the spec: a time-domain dataset for channel `c` —
x mapped linearly across `[0, width)`, y scaled by `config.scale`
(spec 4.4 step 3). -/
def timeDataset (cfg : GraphConfig) (n c : ℕ) (ch : List ℚ) : Dataset :=
  { color := cfg.palette.getD (c % cfg.palette.length) 0,
    points := (trailingWindow n ch).enum.map
      (fun p => ((p.1 : ℚ) * cfg.width / n, p.2 * cfg.scale)) }

/-- Modelled from the spec: a vectorscope dataset for the channel pair
`(2k, 2k+1)` — x and y are the paired samples scaled by `config.scale`
(spec 4.4 step 2). -/
def vectorDataset (cfg : GraphConfig) (n k : ℕ) (chx chy : List ℚ) :
    Dataset :=
  { color := cfg.palette.getD (k % cfg.palette.length) 0,
    points := ((trailingWindow n chx).zip (trailingWindow n chy)).map
      (fun p => (p.1 * cfg.scale, p.2 * cfg.scale)) }

/-- Modelled from the spec: the reference dataset — a horizontal zero line
in time-domain mode, an origin crosshair at `±scale` in vectorscope mode
(spec 4.4 step 5). -/
def referenceDataset (mode : DisplayMode) (cfg : GraphConfig) : Dataset :=
  match mode with
  | DisplayMode.timeDomain =>
    { color := 0, points := [(0, 0), ((cfg.width : ℚ), 0)] }
  | DisplayMode.vectorscope =>
    { color := 0,
      points := [(-cfg.scale, 0), (cfg.scale, 0),
        (0, -cfg.scale), (0, cfg.scale)] }

/-- Modelled from the spec: the per-frame dataset computation of
`process` (spec 4.4 steps 1–5): trailing window of length
`min(config.samples, matrix[0].len())`, one dataset per channel
(time-domain) or per adjacent channel pair (vectorscope, odd trailing
channel dropped), plus the reference dataset unless disabled. -/
def computeDatasets (mode : DisplayMode) (cfg : GraphConfig)
    (m : List (List ℚ)) : List Dataset :=
  let n := min cfg.samples (m.getD 0 []).length
  let chans :=
    match mode with
    | DisplayMode.timeDomain =>
      m.enum.map (fun p => timeDataset cfg n p.1 p.2)
    | DisplayMode.vectorscope =>
      (List.range (m.length / 2)).map
        (fun k => vectorDataset cfg n k (m.getD (2 * k) []) (m.getD (2 * k + 1) []))
  chans ++ (if cfg.no_reference then [] else [referenceDataset mode cfg])

/-- Modelled from the spec: the engine state — its display mode and the
most recently computed dataset list, retained for pause/freeze-frame
(spec 4.4 "States" and spec 9). -/
structure Oscilloscope where
  mode : DisplayMode
  last : List Dataset

/-- Modelled from the spec: `process(config, matrix)` — while paused the
engine returns the last computed dataset list unchanged; otherwise it
recomputes and retains the new list (spec 4.4). -/
def Oscilloscope.process (o : Oscilloscope) (cfg : GraphConfig)
    (m : List (List ℚ)) : Oscilloscope × List Dataset :=
  if cfg.pause then (o, o.last)
  else
    let ds := computeDatasets o.mode cfg m
    ({ o with last := ds }, ds)

/-- How one point transforms when `config.scale` doubles: time-domain
keeps x and doubles y, vectorscope doubles both coordinates. -/
def scalePoint (mode : DisplayMode) (p : ℚ × ℚ) : ℚ × ℚ :=
  match mode with
  | DisplayMode.timeDomain => (p.1, 2 * p.2)
  | DisplayMode.vectorscope => (2 * p.1, 2 * p.2)

/-! ### Interaction state (src/src/main.rs, run_app scope controls) -/

/-- Abstract key codes distinguished by the tab-4 scope-control match in
`run_app` (src/src/main.rs); `other` covers every unrecognized key. -/
inductive KCode
  | up
  | down
  | left
  | right
  | charS
  | space
  | plus
  | minus
  | charQ
  | other
deriving DecidableEq

/-- A key event: logical code plus active modifiers. -/
structure KeyEvt where
  code : KCode
  shift : Bool
  ctrl : Bool
  alt : Bool

/-- The `match key.modifiers` magnitude selection of `run_app`
(src/src/main.rs): exactly Shift = 10, exactly Control = 5, exactly
Alt = 0.2, anything else 1. -/
def magnitudeOf (e : KeyEvt) : ℚ :=
  if e.shift && !e.ctrl && !e.alt then 10
  else if e.ctrl && !e.shift && !e.alt then 5
  else if e.alt && !e.shift && !e.ctrl then 1 / 5
  else 1

/-- Modelled from the spec: `update_value_f` (scope display module, not
present under src/). Spec 4.5: a bounded numeric adjustment — add
`step * magnitude` and clamp into the range. -/
def update_value_f (val step mag lo hi : ℚ) : ℚ :=
  if hi < val + step * mag then hi
  else if val + step * mag < lo then lo
  else val + step * mag

/-- Modelled from the spec: `update_value_i` (scope display module, not
present under src/). Spec 4.5: a bounded integer adjustment — move by
`step * magnitude` (truncated) and clamp into `[0, bound)`; decrements
saturate at 0. -/
def update_value_i (val : ℕ) (inc : Bool) (step : ℕ) (mag : ℚ)
    (bound : ℕ) : ℕ :=
  let d : ℕ := ((step : ℚ) * mag).floor.toNat
  if inc then min (val + d) (bound - 1) else val - d

/-- The scope-relevant interaction state mutated by the tab-4 key handling
of `run_app`: the graph configuration fields it adjusts plus the player
volume/pause flags. -/
structure ScopeApp where
  scale : ℚ
  samples : ℕ
  width : ℕ
  scatter : Bool
  pause : Bool
  volume : ℚ
  player_paused : Bool

/-- The tab-4 Normal-mode key handling of `run_app` (src/src/main.rs),
restricted to the scope interaction state: Shift+arrows adjust scale and
window, `s` toggles scatter, Space toggles pause, `+`/`-` adjust volume
(clamped to `[0, 10]` by `AudioPlayer::set_volume`); everything else
leaves this state unchanged. -/
def handleScopeKey (st : ScopeApp) (e : KeyEvt) : ScopeApp :=
  let mag := magnitudeOf e
  match e.code with
  | KCode.up =>
    if e.shift then
      { st with scale := update_value_f st.scale (1 / 100) mag 0 10 }
    else st
  | KCode.down =>
    if e.shift then
      { st with scale := update_value_f st.scale (-(1 / 100)) mag 0 10 }
    else st
  | KCode.right =>
    if e.shift then
      { st with samples := update_value_i st.samples true 25 mag (st.width * 2) }
    else st
  | KCode.left =>
    if e.shift then
      { st with samples := update_value_i st.samples false 25 mag (st.width * 2) }
    else st
  | KCode.charS => { st with scatter := !st.scatter }
  | KCode.space =>
    { st with pause := !st.pause, player_paused := !st.player_paused }
  | KCode.plus => { st with volume := min (max (st.volume + 1 / 10) 0) 10 }
  | KCode.minus => { st with volume := min (max (st.volume - 1 / 10) 0) 10 }
  | _ => st

/-! ### Supporting lemmas for the window/matrix claims -/

theorem get_window_length (p : AudioPlayer) (start ws : ℕ) :
    (p.get_window start ws).length = p.channels := by
  unfold AudioPlayer.get_window
  split_ifs <;> simp

theorem get_window_row_length (p : AudioPlayer) (start ws : ℕ) :
    ∀ b ∈ p.get_window start ws, b.length = ws := by
  unfold AudioPlayer.get_window
  split_ifs with h1 h2
  · intro b hb
    rw [List.eq_of_mem_replicate hb]
    simp
  · intro b hb
    rw [List.eq_of_mem_replicate hb]
    simp
  · intro b hb
    obtain ⟨ch, hch, rfl⟩ := List.mem_map.mp hb
    simp only
    split_ifs with hs hl
    · simp only [List.length_append, List.length_replicate]
      omega
    · have : (((p.audio_data.getD ch []).drop start).take ws).length = ws := by
        simp only [List.length_take, List.length_drop] at hl ⊢
        omega
      exact this
    · simp

theorem get_window_padding (p : AudioPlayer) (start ws j i : ℕ)
    (hj : j < p.channels) (hi : i < ws)
    (hav : (p.audio_data.getD j []).length ≤ start + i) :
    ((p.get_window start ws).getD j []).getD i 0 = 0 := by
  unfold AudioPlayer.get_window
  split_ifs with h1 h2
  · rw [getD_replicate_replicate _ _ _ hj, getD_replicate_zero]
  · rw [getD_replicate_replicate _ _ _ hj, getD_replicate_zero]
  · rw [getD_map_range _ _ _ hj]
    simp only
    split_ifs with hs hl
    · apply getD_append_replicate_zero
      simp only [List.length_take, List.length_drop]
      omega
    · exfalso
      simp only [List.length_take, List.length_drop] at hl
      omega
    · exact getD_replicate_zero _ _

/-! ### Supporting lemmas for the render-engine and interaction claims -/

theorem timeDataset_double (cfg : GraphConfig) (n c : ℕ) (ch : List ℚ) :
    timeDataset { cfg with scale := 2 * cfg.scale } n c ch =
      { timeDataset cfg n c ch with
        points := (timeDataset cfg n c ch).points.map
          (scalePoint DisplayMode.timeDomain) } := by
  unfold timeDataset
  simp only [List.map_map]
  congr 1
  apply List.map_congr_left
  intro p hp
  simp only [Function.comp_apply, scalePoint, Prod.mk.injEq]
  exact ⟨trivial, by ring⟩

theorem vectorDataset_double (cfg : GraphConfig) (n k : ℕ)
    (chx chy : List ℚ) :
    vectorDataset { cfg with scale := 2 * cfg.scale } n k chx chy =
      { vectorDataset cfg n k chx chy with
        points := (vectorDataset cfg n k chx chy).points.map
          (scalePoint DisplayMode.vectorscope) } := by
  unfold vectorDataset
  simp only [List.map_map]
  congr 1
  apply List.map_congr_left
  intro p hp
  simp only [Function.comp_apply, scalePoint, Prod.mk.injEq]
  exact ⟨by ring, by ring⟩

theorem referenceDataset_double (mode : DisplayMode) (cfg : GraphConfig) :
    referenceDataset mode { cfg with scale := 2 * cfg.scale } =
      { referenceDataset mode cfg with
        points := (referenceDataset mode cfg).points.map (scalePoint mode) } := by
  cases mode <;> simp [referenceDataset, scalePoint]

theorem computeDatasets_double (mode : DisplayMode) (cfg : GraphConfig)
    (m : List (List ℚ)) :
    computeDatasets mode { cfg with scale := 2 * cfg.scale } m =
      (computeDatasets mode cfg m).map
        (fun ds => { ds with points := ds.points.map (scalePoint mode) }) := by
  cases mode with
  | timeDomain =>
    unfold computeDatasets
    simp only
    rw [List.map_append]
    refine congrArg₂ (· ++ ·) ?_ ?_
    · rw [List.map_map]
      apply List.map_congr_left
      intro p hp
      simp only [Function.comp_apply]
      rw [timeDataset_double]
    · split_ifs with h
      · rfl
      · rw [List.map_singleton, referenceDataset_double]
  | vectorscope =>
    unfold computeDatasets
    simp only
    rw [List.map_append]
    refine congrArg₂ (· ++ ·) ?_ ?_
    · rw [List.map_map]
      apply List.map_congr_left
      intro k hk
      simp only [Function.comp_apply]
      rw [vectorDataset_double]
    · split_ifs with h
      · rfl
      · rw [List.map_singleton, referenceDataset_double]

theorem update_value_f_bounds (val step mag : ℚ) :
    0 ≤ update_value_f val step mag 0 10 ∧
    update_value_f val step mag 0 10 ≤ 10 := by
  unfold update_value_f
  split_ifs <;> constructor <;> linarith

theorem update_value_i_lt (val : ℕ) (inc : Bool) (step : ℕ) (mag : ℚ)
    (bound : ℕ) (hb : 0 < bound) (hv : val < bound) :
    update_value_i val inc step mag bound < bound := by
  simp only [update_value_i]
  split_ifs <;> omega

theorem handleScopeKey_inv (st : ScopeApp) (e : KeyEvt)
    (h1 : 0 ≤ st.scale) (h2 : st.scale ≤ 10) (h3 : st.samples < 2 * st.width)
    (hw : 0 < st.width) :
    0 ≤ (handleScopeKey st e).scale ∧ (handleScopeKey st e).scale ≤ 10 ∧
    (handleScopeKey st e).samples < 2 * (handleScopeKey st e).width ∧
    (handleScopeKey st e).width = st.width := by
  obtain ⟨c, sh, ct, al⟩ := e
  have hup := update_value_f_bounds st.scale (1 / 100)
    (magnitudeOf ⟨c, sh, ct, al⟩)
  have hdn := update_value_f_bounds st.scale (-(1 / 100))
    (magnitudeOf ⟨c, sh, ct, al⟩)
  have hri : update_value_i st.samples true 25
      (magnitudeOf ⟨c, sh, ct, al⟩) (st.width * 2) < 2 * st.width := by
    have := update_value_i_lt st.samples true 25
      (magnitudeOf ⟨c, sh, ct, al⟩) (st.width * 2) (by omega) (by omega)
    omega
  have hle : update_value_i st.samples false 25
      (magnitudeOf ⟨c, sh, ct, al⟩) (st.width * 2) < 2 * st.width := by
    have := update_value_i_lt st.samples false 25
      (magnitudeOf ⟨c, sh, ct, al⟩) (st.width * 2) (by omega) (by omega)
    omega
  cases c with
  | up =>
    simp only [handleScopeKey]
    split_ifs with hsh
    · exact ⟨hup.1, hup.2, h3, rfl⟩
    · exact ⟨h1, h2, h3, rfl⟩
  | down =>
    simp only [handleScopeKey]
    split_ifs with hsh
    · exact ⟨hdn.1, hdn.2, h3, rfl⟩
    · exact ⟨h1, h2, h3, rfl⟩
  | right =>
    simp only [handleScopeKey]
    split_ifs with hsh
    · exact ⟨h1, h2, hri, rfl⟩
    · exact ⟨h1, h2, h3, rfl⟩
  | left =>
    simp only [handleScopeKey]
    split_ifs with hsh
    · exact ⟨h1, h2, hle, rfl⟩
    · exact ⟨h1, h2, h3, rfl⟩
  | charS => exact ⟨h1, h2, h3, rfl⟩
  | space => exact ⟨h1, h2, h3, rfl⟩
  | plus => exact ⟨h1, h2, h3, rfl⟩
  | minus => exact ⟨h1, h2, h3, rfl⟩
  | charQ => exact ⟨h1, h2, h3, rfl⟩
  | other => exact ⟨h1, h2, h3, rfl⟩

theorem foldl_handleScopeKey_inv (evs : List KeyEvt) :
    ∀ st : ScopeApp, 0 < st.width → 0 ≤ st.scale → st.scale ≤ 10 →
      st.samples < 2 * st.width →
      0 ≤ (evs.foldl handleScopeKey st).scale ∧
      (evs.foldl handleScopeKey st).scale ≤ 10 ∧
      (evs.foldl handleScopeKey st).samples <
        2 * (evs.foldl handleScopeKey st).width := by
  induction evs with
  | nil => intro st hw h1 h2 h3; exact ⟨h1, h2, h3⟩
  | cons e rest ih =>
    intro st hw h1 h2 h3
    obtain ⟨g1, g2, g3, g4⟩ := handleScopeKey_inv st e h1 h2 h3 hw
    exact ih _ (by rw [g4]; exact hw) g1 g2 g3

/-! ## Claim theorems -/

/-- C1 (counterexample): the claim fails as stated.  For the note "A4" at
sample rate 44000 with 2 channels, the exact period in samples is
`44000 / 440 = 100`; `tune_buffer_size` returns 100, which is a multiple of
`channels * 2 = 4`, so the alignment loop of `SourceOptions::tune` bumps the
buffer to 101 — and 101 is not an integer multiple of the period 100, so
the final buffer's ratio to `sample_rate / frequency` is not an integer. -/
theorem C1_counterexample :
    parseNote "A4" = some { pitchClass := 9, octave := 4 } ∧
    roundedPeriod 44000 (Note.semitonesFromA4 { pitchClass := 9, octave := 4 }) = 100 ∧
    (44000 : ℚ) / 440 = 100 ∧
    (SourceOptions.tuneApply
      { channels := 2, buffer := 2048, sample_rate := 44000,
        tune := some "A4" }).1.buffer = 101 ∧
    ¬ ((100 : ℤ) ∣ 101) :=
  ⟨by decide, by decide, by norm_num, by decide, by decide⟩

/-- C1 (amended): for every options value whose note name parses, the
buffer produced by `SourceOptions::tune` is never evenly divisible by
`channels * 2`; it is the note-derived size (`tune_buffer_size`, an integer
multiple of the rounded period) incremented past any such multiple, so its
ratio to the note's period need not be an integer. -/
theorem C1_tuned_buffer_not_aligned (o : SourceOptions) (txt : String)
    (note : Note) (h1 : o.tune = some txt) (h2 : parseNote txt = some note) :
    o.tuneApply.1.buffer =
      alignStep (o.channels * 2 + 2) (o.channels * 2)
        (note.tune_buffer_size o.sample_rate) ∧
    ¬ (o.channels * 2 ∣ o.tuneApply.1.buffer) := by
  have hres : o.tuneApply =
      ({ o with
          buffer :=
            alignStep (o.channels * 2 + 2) (o.channels * 2)
              (note.tune_buffer_size o.sample_rate) }, false) := by
    unfold SourceOptions.tuneApply
    rw [h1]
    dsimp only
    rw [h2]
  rw [hres]
  exact ⟨rfl, alignStep_not_dvd _ _ ⟨o.channels, by ring⟩⟩

/-- C1 (witness): the amended theorem applied to the concrete options
`{channels := 2, buffer := 2048, sample_rate := 44000, tune := "A4"}`. -/
theorem C1_witness :
    (({ channels := 2, buffer := 2048, sample_rate := 44000,
        tune := some "A4" } : SourceOptions).tune = some "A4") ∧
    parseNote "A4" = some { pitchClass := 9, octave := 4 } ∧
    ¬ ((2 : ℕ) * 2 ∣
        (SourceOptions.tuneApply
          { channels := 2, buffer := 2048, sample_rate := 44000,
            tune := some "A4" }).1.buffer) :=
  ⟨rfl, by decide,
    (C1_tuned_buffer_not_aligned
      { channels := 2, buffer := 2048, sample_rate := 44000,
        tune := some "A4" } "A4" { pitchClass := 9, octave := 4 }
      rfl (by decide)).2⟩

/-- C5: a note string that fails to parse is non-fatal — `SourceOptions::tune`
prints the warning and returns every field of the options unchanged. -/
theorem C5_unparsable_note_kept (o : SourceOptions) (txt : String)
    (h1 : o.tune = some txt) (h2 : parseNote txt = none) :
    o.tuneApply = (o, true) := by
  unfold SourceOptions.tuneApply
  rw [h1]
  dsimp only
  rw [h2]

/-- C5 (witness): the unparsable note "Hb2" leaves the concrete options
unchanged and triggers the warning. -/
theorem C5_witness :
    parseNote "Hb2" = none ∧
    (SourceOptions.tuneApply
      { channels := 2, buffer := 2048, sample_rate := 48000,
        tune := some "Hb2" }) =
      ({ channels := 2, buffer := 2048, sample_rate := 48000,
         tune := some "Hb2" }, true) :=
  ⟨by decide,
    C5_unparsable_note_kept
      { channels := 2, buffer := 2048, sample_rate := 48000,
        tune := some "Hb2" } "Hb2" rfl (by decide)⟩

/-- C2 (counterexample): the claim fails as stated for `FileSource::recv` —
with configured buffer 2 and 1 channel the received Matrix's channel buffer
has length 1 (the byte buffer holds `buffer * channels = 2` bytes, i.e. one
16-bit sample), not the configured buffer length 2. -/
theorem C2_counterexample :
    FileSource.recv
      { channels := 1, buffer := 2, sample_rate := 48000, tune := none }
      [Except.ok [0, 0]] = some [[0]] ∧
    (([[0]] : List (List ℚ)).getD 0 []).length ≠
      ({ channels := 1, buffer := 2, sample_rate := 48000,
         tune := none } : SourceOptions).buffer := by
  constructor
  · simp [FileSource.recv, read_with_padding, chunks2, Signed16PCM.parse,
      stream_to_matrix, deinterleave, deinterleaveAux, pushAt]
  · decide

/-- C2 (amended): `AudioPlayer::get_window` always returns exactly
`channels` buffers of exactly `window_size` samples, zero-filled wherever
fewer samples were available; `FileSource::recv` (absent a read error)
returns `channels` buffers, but their lengths derive from the
`⌈buffer * channels / 2⌉` decoded 16-bit samples round-robined over the
channels — about half the configured buffer length, not equal to it. -/
theorem C2_matrix_shapes :
    (∀ (p : AudioPlayer) (start ws : ℕ),
      (p.get_window start ws).length = p.channels ∧
      (∀ b ∈ p.get_window start ws, b.length = ws) ∧
      (∀ j i : ℕ, j < p.channels → i < ws →
        (p.audio_data.getD j []).length ≤ start + i →
        ((p.get_window start ws).getD j []).getD i 0 = 0)) ∧
    (∀ (o : SourceOptions) (reads : List (Except Unit (List ℕ))),
      0 < o.channels → (∀ r ∈ reads, r ≠ Except.error ()) →
      ∃ mtx, FileSource.recv o reads = some mtx ∧
        mtx.length = o.channels ∧
        ∀ j, j < o.channels →
          (mtx.getD j []).length =
            ((o.buffer * o.channels + 1) / 2 + o.channels - 1 - j) /
              o.channels) := by
  constructor
  · intro p start ws
    exact ⟨get_window_length p start ws, get_window_row_length p start ws,
      fun j i hj hi hav => get_window_padding p start ws j i hj hi hav⟩
  · intro o reads hC hne
    obtain ⟨bytes, hb, hblen⟩ :=
      read_with_padding_ok (o.buffer * o.channels) reads [] hne (by simp)
    refine ⟨stream_to_matrix ((chunks2 bytes).map Signed16PCM.parse)
      o.channels 32768, ?_, ?_, ?_⟩
    · unfold FileSource.recv
      rw [hb]
    · unfold stream_to_matrix
      exact length_deinterleave _ _
    · intro j hj
      unfold stream_to_matrix
      rw [getD_deinterleave _ _ _ hj, length_select _ _ _ hj]
      simp only [List.length_map, length_chunks2, hblen]

/-- C2 (witness): the amended recv statement at concrete options (buffer 3,
2 channels) and a concrete error-free read script. -/
theorem C2_witness :
    ∃ mtx, FileSource.recv
        { channels := 2, buffer := 3, sample_rate := 48000, tune := none }
        [Except.ok [1, 2, 3]] = some mtx ∧
      mtx.length = 2 ∧
      ∀ j, j < 2 →
        (mtx.getD j []).length = ((3 * 2 + 1) / 2 + 2 - 1 - j) / 2 :=
  C2_matrix_shapes.2
    { channels := 2, buffer := 3, sample_rate := 48000, tune := none }
    [Except.ok [1, 2, 3]] (by decide) (by simp)

/-- C3 (counterexample): the claim fails as stated — de-interleaving 3
samples over 2 channels routes indices 0, 2 to channel 0 and index 1 to
channel 1, so channel 1 has length 1, not `⌈3/2⌉ = 2`. -/
theorem C3_counterexample :
    deinterleave 2 [1, 2, 3] = [[1, 3], [2]] ∧
    ((deinterleave 2 [(1 : ℚ), 2, 3]).getD 1 []).length ≠ (3 + 2 - 1) / 2 := by
  constructor
  · decide
  · decide

/-- C3 (amended): de-interleaving routes sample `i` to channel `i mod C`;
channel `j` has length `⌈(L - j) / C⌉` (which equals `⌈L/C⌉` for every
channel exactly when `C` divides `L`), and reading the channels back in
round-robin order (element `k` from channel `k mod C` at position
`k / C`) reconstructs the original sequence. -/
theorem C3_deinterleave_props (C : ℕ) (s : List ℚ) (hC : 0 < C) :
    (deinterleave C s).length = C ∧
    (∀ j, j < C →
      ((deinterleave C s).getD j []).length = (s.length + C - 1 - j) / C) ∧
    interleave C (deinterleave C s) s.length = s :=
  ⟨length_deinterleave C s,
   fun j hj => by rw [getD_deinterleave C s j hj, length_select C s j hj],
   interleave_deinterleave C hC s⟩

/-- C3 (witness): the amended statement at 5 concrete samples over 2
channels. -/
theorem C3_witness :
    (deinterleave 2 [(5 : ℚ), 6, 7, 8, 9]).length = 2 ∧
    interleave 2 (deinterleave 2 [(5 : ℚ), 6, 7, 8, 9])
      ([(5 : ℚ), 6, 7, 8, 9]).length = [(5 : ℚ), 6, 7, 8, 9] :=
  ⟨(C3_deinterleave_props 2 [5, 6, 7, 8, 9] (by decide)).1,
   (C3_deinterleave_props 2 [5, 6, 7, 8, 9] (by decide)).2.2⟩

/-- C4: a partial read is recovered locally by zero-padding and never
surfaced as an error — `read_with_padding` returns `Ok` with the unread
tail zeroed (in particular a full-length buffer) whenever no underlying
read errors, and `FileSource::recv` returns the `None` sentinel only when
an underlying I/O error occurred, never on end-of-file. -/
theorem C4_short_read_recovery :
    (∀ (bufLen : ℕ) (reads : List (Except Unit (List ℕ))),
      (∀ r ∈ reads, r ≠ Except.error ()) →
      ∃ l, read_with_padding bufLen reads [] = Except.ok l ∧
        l.length = bufLen) ∧
    (∀ (bufLen : ℕ) (d : List ℕ), d ≠ [] → d.length ≤ bufLen →
      read_with_padding bufLen [Except.ok d] [] =
        Except.ok (d ++ List.replicate (bufLen - d.length) 0)) ∧
    (∀ (o : SourceOptions) (reads : List (Except Unit (List ℕ))),
      FileSource.recv o reads = none → Except.error () ∈ reads) := by
  refine ⟨?_, ?_, ?_⟩
  · intro bufLen reads hne
    exact read_with_padding_ok bufLen reads [] hne (by simp)
  · intro bufLen d hd hlen
    exact read_with_padding_eof bufLen d hd hlen
  · intro o reads hnone
    unfold FileSource.recv at hnone
    cases h : read_with_padding (o.buffer * o.channels) reads [] with
    | ok bytes =>
      rw [h] at hnone
      simp at hnone
    | error e =>
      cases e
      exact read_with_padding_error (o.buffer * o.channels) reads [] () h

/-- C4 (witness): the three parts at concrete inputs — a 2-byte read into a
4-byte buffer stays `Ok` at full length, a 2-byte read into a 5-byte buffer
returns the data zero-padded, and a scripted I/O error is the only way a
concrete `recv` produced `None`. -/
theorem C4_witness :
    (∃ l, read_with_padding 4 [Except.ok [1, 2]] [] = Except.ok l ∧
      l.length = 4) ∧
    read_with_padding 5 [Except.ok [7, 8]] [] =
      Except.ok ([7, 8] ++ List.replicate 3 0) ∧
    Except.error () ∈ ([Except.error ()] : List (Except Unit (List ℕ))) :=
  ⟨C4_short_read_recovery.1 4 [Except.ok [1, 2]] (by simp),
   C4_short_read_recovery.2.1 5 [7, 8] (by decide) (by decide),
   C4_short_read_recovery.2.2
     { channels := 1, buffer := 1, sample_rate := 48000, tune := none }
     [Except.error ()] (by decide)⟩

/-- C6: while paused, `process` returns the last computed dataset list
unchanged — two successive calls with `pause = true` and two different
Matrices both return the retained datasets and never recompute. -/
theorem C6_pause_freeze (o : Oscilloscope) (cfg : GraphConfig)
    (m1 m2 : List (List ℚ)) (h : cfg.pause = true) :
    (o.process cfg m1).2 = o.last ∧
    ((o.process cfg m1).1.process cfg m2).2 = o.last := by
  simp [Oscilloscope.process, h]

/-- C6 (witness): a concrete paused engine handed two different Matrices
returns its frozen (empty) dataset list both times. -/
theorem C6_witness :
    (({ mode := DisplayMode.timeDomain, last := [] } : Oscilloscope).process
      { samples := 200, sampling_rate := 44100, scale := 1, width := 200,
        scatter := false, pause := true, no_reference := false,
        palette := [1, 2] } [[1]]).2 = [] ∧
    ((({ mode := DisplayMode.timeDomain, last := [] } : Oscilloscope).process
      { samples := 200, sampling_rate := 44100, scale := 1, width := 200,
        scatter := false, pause := true, no_reference := false,
        palette := [1, 2] } [[1]]).1.process
      { samples := 200, sampling_rate := 44100, scale := 1, width := 200,
        scatter := false, pause := true, no_reference := false,
        palette := [1, 2] } [[2]]).2 = [] :=
  C6_pause_freeze { mode := DisplayMode.timeDomain, last := [] }
    { samples := 200, sampling_rate := 44100, scale := 1, width := 200,
      scatter := false, pause := true, no_reference := false,
      palette := [1, 2] } [[1]] [[2]] rfl

/-- C7: the render output is linear in `config.scale` — doubling the scale
doubles every y-amplitude of every time-domain dataset and both coordinates
of every vectorscope dataset produced by `process` (running, i.e. not
paused). -/
theorem C7_scale_linearity (o : Oscilloscope) (cfg : GraphConfig)
    (m : List (List ℚ)) :
    (o.process { cfg with pause := false, scale := 2 * cfg.scale } m).2 =
      ((o.process { cfg with pause := false } m).2).map
        (fun ds => { ds with points := ds.points.map (scalePoint o.mode) }) := by
  unfold Oscilloscope.process
  rw [if_neg (by simp), if_neg (by simp)]
  exact computeDatasets_double o.mode { cfg with pause := false } m

/-- C8: the interaction state stays bounded — after any sequence of handled
key events, `scale` remains within `[0, 10]` and `samples` within
`[0, 2*width)`; the adjustment magnitude is 10 under Shift alone, 5 under
Control alone and 0.2 under Alt alone; events matching no recognized
intent leave the scope state unchanged. -/
theorem C8_interaction_bounds :
    (∀ (evs : List KeyEvt) (st : ScopeApp), 0 < st.width →
      0 ≤ st.scale → st.scale ≤ 10 → st.samples < 2 * st.width →
      0 ≤ (evs.foldl handleScopeKey st).scale ∧
      (evs.foldl handleScopeKey st).scale ≤ 10 ∧
      (evs.foldl handleScopeKey st).samples <
        2 * (evs.foldl handleScopeKey st).width) ∧
    (∀ (st : ScopeApp) (e : KeyEvt), e.code = KCode.other →
      handleScopeKey st e = st) ∧
    (∀ c : KCode,
      magnitudeOf { code := c, shift := true, ctrl := false, alt := false } = 10 ∧
      magnitudeOf { code := c, shift := false, ctrl := true, alt := false } = 5 ∧
      magnitudeOf { code := c, shift := false, ctrl := false, alt := true } = 1 / 5) := by
  refine ⟨?_, ?_, ?_⟩
  · intro evs st hw h1 h2 h3
    exact foldl_handleScopeKey_inv evs st hw h1 h2 h3
  · intro st e h
    obtain ⟨c, sh, ct, al⟩ := e
    have hc : c = KCode.other := h
    subst hc
    rfl
  · intro c
    exact ⟨rfl, rfl, rfl⟩

/-- C8 (witness): the bound invariant applied to one Shift+Up event from
the app's initial graph configuration (scale 1, samples 200, width 200). -/
theorem C8_witness :
    0 ≤ (([{ code := KCode.up, shift := true, ctrl := false, alt := false }] :
        List KeyEvt).foldl handleScopeKey
      { scale := 1, samples := 200, width := 200, scatter := false,
        pause := false, volume := 1, player_paused := false }).scale ∧
    (([{ code := KCode.up, shift := true, ctrl := false, alt := false }] :
        List KeyEvt).foldl handleScopeKey
      { scale := 1, samples := 200, width := 200, scatter := false,
        pause := false, volume := 1, player_paused := false }).scale ≤ 10 ∧
    (([{ code := KCode.up, shift := true, ctrl := false, alt := false }] :
        List KeyEvt).foldl handleScopeKey
      { scale := 1, samples := 200, width := 200, scatter := false,
        pause := false, volume := 1, player_paused := false }).samples <
      2 * (([{ code := KCode.up, shift := true, ctrl := false, alt := false }] :
        List KeyEvt).foldl handleScopeKey
      { scale := 1, samples := 200, width := 200, scatter := false,
        pause := false, volume := 1, player_paused := false }).width :=
  C8_interaction_bounds.1
    [{ code := KCode.up, shift := true, ctrl := false, alt := false }]
    { scale := 1, samples := 200, width := 200, scatter := false,
      pause := false, volume := 1, player_paused := false }
    (by norm_num) (by norm_num) (by norm_num) (by norm_num)

/-- C9: through the file pipeline (`Signed16PCM::parse` then the 32768.0
divisor of `stream_to_matrix`), bytes `[0x00, 0x80]` produce the sample
-1.0 and bytes `[0xFF, 0x7F]` produce `32767/32768 ≈ 0.999969` in the
received Matrix. -/
theorem C9_pcm_normalization :
    FileSource.recv
      { channels := 1, buffer := 4, sample_rate := 48000, tune := none }
      [Except.ok [0, 128, 255, 127]] = some [[-1, 32767 / 32768]] ∧
    (999969 : ℚ) / 1000000 < 32767 / 32768 ∧
    (32767 : ℚ) / 32768 < 99997 / 100000 := by
  refine ⟨?_, by norm_num, by norm_num⟩
  simp [FileSource.recv, read_with_padding, chunks2, Signed16PCM.parse,
    stream_to_matrix, deinterleave, deinterleaveAux, pushAt]
  norm_num

/-- C10: whenever the player is paused or in streaming mode, `get_window`
returns `channels` buffers of `window_size` exact zeros — the visualizer
input is silence, not the previously displayed audio. -/
theorem C10_paused_window_silence (p : AudioPlayer) (start ws : ℕ)
    (h : p.is_paused = true ∨ p.is_streaming_mode = true) :
    p.get_window start ws =
      List.replicate p.channels (List.replicate ws 0) := by
  unfold AudioPlayer.get_window
  have hb : (p.is_paused || p.is_streaming_mode) = true := by
    rcases h with h | h <;> simp [h]
  rw [if_pos hb]

/-- C10 (witness): a concrete paused player with non-zero stored audio
still yields an all-zero window. -/
theorem C10_witness :
    AudioPlayer.get_window
      { audio_data := [[5], [6]], sample_rate := 44100, channels := 2,
        is_streaming_mode := false, is_paused := true, volume := 1 } 0 3 =
      List.replicate 2 (List.replicate 3 0) :=
  C10_paused_window_silence
    { audio_data := [[5], [6]], sample_rate := 44100, channels := 2,
      is_streaming_mode := false, is_paused := true, volume := 1 } 0 3
    (Or.inl rfl)
